import Mathlib

/-!
# Verification of the two Advent-of-Code 2019 solvers (day 1 and day 2)

Shallow embedding of the two Rust programs:

* `src/day1/rs/main.rs` — fuel-cost computation: `get_cost`, `part2`
  (a while loop accumulating the chain of costs per mass).
* `src/day2/rs/main.rs` — Intcode interpreter: `Program::execute`
  (fetch-decode-execute loop over a cloned memory) and the `part2`
  brute-force search over `(i, j) ∈ [0,100) × [0,100)`.

Machine-integer conventions: Rust `i32` values are embedded as `Int`.
Division in `get_cost` is Rust's truncating `/`, embedded as `Int.tdiv`.
`i32` addition and multiplication wrap (release-mode overflow
semantics) via `wrap32`, both in the day-1 accumulator and in the
interpreter.  The interpreter's `as usize` cast is embedded as
reduction modulo `2^64` followed by `Int.toNat`.  A Rust panic
(out-of-bounds index) is a distinct outcome `panic`, separate from the
`Err(String)` results the source returns.
-/

/-- `i32` wrapping arithmetic (release-mode overflow semantics): reduce
into `[-2^31, 2^31)`. -/
def wrap32 (n : Int) : Int := (n + 2 ^ 31) % 2 ^ 32 - 2 ^ 31

theorem wrap32_wrap32_add (a b : Int) : wrap32 (wrap32 a + b) = wrap32 (a + b) := by
  have h31 : (2 : Int) ^ 31 = 2147483648 := by norm_num
  have h32 : (2 : Int) ^ 32 = 4294967296 := by norm_num
  simp only [wrap32, h31, h32]
  omega

namespace Day1

/-- `fn get_cost(n: &i32) -> i32 { return n/3 - 2 }` — Rust `/` on `i32`
truncates toward zero, which is `Int.tdiv`. -/
def get_cost (n : Int) : Int := Int.tdiv n 3 - 2

/-- The `while next_cost >= 0 { total_cost += next_cost; next_cost = get_cost(&next_cost) }`
loop of `part2`, as a recursive function on the loop state
`(next_cost, total_cost)`; the `+=` is `i32` addition and wraps. -/
def fuel_loop (next_cost total_cost : Int) : Int :=
  if next_cost ≥ 0 then fuel_loop (get_cost next_cost) (wrap32 (total_cost + next_cost))
  else total_cost
termination_by (next_cost + 3).toNat
decreasing_by
  have h1 : Int.tdiv next_cost 3 ≤ next_cost := by
    rw [Int.tdiv_eq_ediv (by omega) (by omega)]
    exact Int.ediv_le_self 3 (by omega)
  have h2 : 0 ≤ Int.tdiv next_cost 3 := Int.tdiv_nonneg (by omega) (by omega)
  simp only [get_cost]
  omega

/-- `fn part2(input: &Vec<i32>) -> i32`: running total over the input,
each mass contributing its fuel chain via the while loop. -/
def part2 (input : List Int) : Int :=
  input.foldl (fun total_cost item => fuel_loop (get_cost item) total_cost) 0

/-- Spec-side description of one mass's chain: the list of successive
costs, each obtained by applying `get_cost` to the previous value,
cut off (exclusively) at the first negative value. -/
def chainList (c : Int) : List Int :=
  if 0 ≤ c then c :: chainList (get_cost c) else []
termination_by (c + 3).toNat
decreasing_by
  have h1 : Int.tdiv c 3 ≤ c := by
    rw [Int.tdiv_eq_ediv (by omega) (by omega)]
    exact Int.ediv_le_self 3 (by omega)
  have h2 : 0 ≤ Int.tdiv c 3 := Int.tdiv_nonneg (by omega) (by omega)
  simp only [get_cost]
  omega

/-- Spec-side description of `part2`: sum, over the masses, of the sum
of each mass's chain of non-negative intermediate costs. -/
def part2_spec (input : List Int) : Int :=
  (input.map (fun m => (chainList (get_cost m)).sum)).sum

theorem chainList_pos (c : Int) (h : 0 ≤ c) :
    chainList c = c :: chainList (get_cost c) := by
  rw [chainList]
  simp [h]

theorem chainList_neg (c : Int) (h : c < 0) :
    chainList c = [] := by
  rw [chainList]
  simp [not_le.mpr h]

theorem fuel_loop_step (c t : Int) (h : 0 ≤ c) :
    fuel_loop c t = fuel_loop (get_cost c) (wrap32 (t + c)) := by
  rw [fuel_loop]
  simp [h]

theorem fuel_loop_stop (c t : Int) (h : c < 0) :
    fuel_loop c t = t := by
  rw [fuel_loop]
  simp [h, not_le.mpr h]

/-- The while loop computes the `i32`-wrapped sum of the chain on top
of the incoming total (and leaves the total untouched when the chain
is empty). -/
theorem fuel_loop_eq_chainSum (c t : Int) :
    fuel_loop c t = if 0 ≤ c then wrap32 (t + (chainList c).sum) else t := by
  induction c, t using fuel_loop.induct with
  | case1 c t hc ih =>
    rw [fuel_loop_step c t hc, ih, chainList_pos c hc, if_pos (show 0 ≤ c from hc)]
    by_cases h2 : 0 ≤ get_cost c
    · rw [if_pos h2, List.sum_cons, wrap32_wrap32_add]
      ring_nf
    · rw [if_neg h2, chainList_neg _ (by omega), List.sum_cons, List.sum_nil]
      ring_nf
  | case2 c t hc =>
    rw [fuel_loop_stop c t (by omega), if_neg (by omega)]

end Day1

namespace Day2

/-- Outcome of `Program::execute`.  `ok v` embeds `Ok(v)`, `err msg` embeds
`Err(msg)` (the source only ever produces `Err("Bad Opcode".to_string())`),
and `panic` embeds a Rust panic from an out-of-bounds `Vec` index. -/
inductive ExecOutcome where
  | ok (v : Int) : ExecOutcome
  | err (msg : String) : ExecOutcome
  | panic : ExecOutcome
deriving DecidableEq, Repr

/-- The `as usize` cast of an `i32` value used as a `Vec` index: reduction
modulo `2^64` (a negative `i32` becomes a huge `usize`). -/
def asUsize (n : Int) : Nat := (n % 2 ^ 64).toNat

/-- `DESIRED_RESULT` constant from the source. -/
def DESIRED_RESULT : Int := 19690720

/-- The `for i in (0..local_memory.len()).step_by(4)` loop body of
`Program::execute`, at loop counter `i` over working memory `m`.
Opcodes: `1` adds, `2` multiplies, `99` breaks (then `Ok(m[0])` is
returned), anything else returns `Err("Bad Opcode")`.  For an
arithmetic opcode the operand positions `m[i+1]`, `m[i+2]` and the
destination position `m[i+3]` are read, the values at the two operand
positions are combined, and the result is stored at the destination
position; every out-of-bounds access panics.  When the counter passes
the end of memory the loop ends and `Ok(m[0])` is returned. -/
def execLoop (m : List Int) (i : Nat) : ExecOutcome :=
  if h : i < m.length then
    if m[i] = 1 ∨ m[i] = 2 then
      match m[i + 1]?, m[i + 2]?, m[i + 3]? with
      | some pa, some pb, some po =>
        match m[asUsize pa]?, m[asUsize pb]? with
        | some va, some vb =>
          if asUsize po < m.length then
            execLoop (m.set (asUsize po)
              (wrap32 (if m[i] = 1 then va + vb else va * vb))) (i + 4)
          else ExecOutcome.panic
        | _, _ => ExecOutcome.panic
      | _, _, _ => ExecOutcome.panic
    else if m[i] = 99 then
      match m[0]? with
      | some v => ExecOutcome.ok v
      | none => ExecOutcome.panic
    else ExecOutcome.err "Bad Opcode"
  else
    match m[0]? with
    | some v => ExecOutcome.ok v
    | none => ExecOutcome.panic
termination_by m.length - i
decreasing_by
  simp only [List.length_set]
  omega

/-- `fn execute(&self, param1: i32, param2: i32) -> Result<i32, String>`:
clone the memory, write `param1` into position 1 and `param2` into
position 2 (each write panics when the position does not exist), then
run the loop from counter 0. -/
def execute (memory : List Int) (param1 param2 : Int) : ExecOutcome :=
  if 1 < memory.length then
    if 2 < memory.length then
      execLoop ((memory.set 1 param1).set 2 param2) 0
    else ExecOutcome.panic
  else ExecOutcome.panic

/-- `struct Program { memory: Vec<i32> }`. -/
structure Program where
  memory : List Int
deriving DecidableEq, Repr

/-- `Program::execute` takes `&self`: embedded with explicit state
passing, the (unchanged) program is returned together with the result
computed on the cloned working memory. -/
def Program.execute (self : Program) (param1 param2 : Int) :
    ExecOutcome × Program :=
  (Day2.execute self.memory param1 param2, self)

/-- Outcome of the `part2` search: `Ok((i, j))`, or `Err(msg)` (either a
propagated interpreter error or `"Could not find result"`), or a panic
propagated from the interpreter. -/
inductive SearchOutcome where
  | ok (pair : Int × Int) : SearchOutcome
  | err (msg : String) : SearchOutcome
  | panic : SearchOutcome
deriving DecidableEq, Repr

/-- The nested `for i in 0..100 { for j in 0..100 { ... } }` loop of
`part2`, from loop state `(i, j)`; `target` abstracts the
`DESIRED_RESULT` constant.  Each candidate pair runs the interpreter;
`?` propagates an `Err` immediately, a matching result returns the pair
immediately, and exhaustion yields `Err("Could not find result")`. -/
def searchFrom (memory : List Int) (target : Int) (i j : Nat) : SearchOutcome :=
  if i < 100 then
    if j < 100 then
      match Day2.execute memory i j with
      | ExecOutcome.ok result =>
        if result = target then SearchOutcome.ok ((i : Int), (j : Int))
        else searchFrom memory target i (j + 1)
      | ExecOutcome.err e => SearchOutcome.err e
      | ExecOutcome.panic => SearchOutcome.panic
    else searchFrom memory target (i + 1) 0
  else SearchOutcome.err "Could not find result"
termination_by (100 - i, 100 - j)

/-- `fn part2(program: &Program) -> Result<(i32, i32), String>`. -/
def part2 (program : Program) : SearchOutcome :=
  searchFrom program.memory DESIRED_RESULT 0 0

/-- Row-major reflexive order on candidate pairs: `(i, j)` comes no
later than `(p, q)`. -/
def posLe (i j p q : Nat) : Prop := i < p ∨ (i = p ∧ j ≤ q)

/-- Row-major strict order on candidate pairs: `(i, j)` comes strictly
earlier than `(p, q)`. -/
def posLt (i j p q : Nat) : Prop := i < p ∨ (i = p ∧ j < q)

instance (i j p q : Nat) : Decidable (posLe i j p q) := by
  unfold posLe; infer_instance

instance (i j p q : Nat) : Decidable (posLt i j p q) := by
  unfold posLt; infer_instance

end Day2

namespace Day1

theorem get_cost_lt_self (n : Int) (h : 0 ≤ n) : get_cost n < n := by
  have h1 : Int.tdiv n 3 ≤ n := by
    rw [Int.tdiv_eq_ediv h (by omega)]
    exact Int.ediv_le_self 3 h
  simp only [get_cost]
  omega

theorem part2_foldl (l : List Int) (s : Int) :
    l.foldl (fun total_cost item => fuel_loop (get_cost item) total_cost) (wrap32 s)
      = wrap32 (s + (l.map (fun m => (chainList (get_cost m)).sum)).sum) := by
  induction l generalizing s with
  | nil => simp
  | cons a l ih =>
    rw [List.foldl_cons, fuel_loop_eq_chainSum]
    by_cases h : 0 ≤ get_cost a
    · rw [if_pos h, wrap32_wrap32_add, ih, List.map_cons, List.sum_cons]
      ring_nf
    · rw [if_neg h, ih, List.map_cons, List.sum_cons, chainList_neg _ (by omega),
        List.sum_nil]
      ring_nf

/-- `part2` computes the `i32`-wrapped value of the mathematical
chain-sum `part2_spec`. -/
theorem part2_eq_wrap32_spec (input : List Int) :
    part2 input = wrap32 (part2_spec input) := by
  have h := part2_foldl input 0
  rw [show wrap32 0 = (0 : Int) from by decide] at h
  rw [part2, part2_spec]
  simpa using h

theorem wrap32_id_of_range (s : Int) (h1 : -(2 ^ 31) ≤ s) (h2 : s < 2 ^ 31) :
    wrap32 s = s := by
  have h31 : (2 : Int) ^ 31 = 2147483648 := by norm_num
  have h32 : (2 : Int) ^ 32 = 4294967296 := by norm_num
  rw [h31] at h1 h2
  simp only [wrap32, h31, h32]
  omega

end Day1

/-- Claim C5: for every 32-bit signed integer `m`, `get_cost m` is
`m / 3 - 2` with truncating (toward-zero) division, which differs from
floor division on negative `m`; in particular `get_cost 12 = 2`,
`get_cost 14 = 2`, `get_cost 1969 = 654` and `get_cost 100756 = 33583`. -/
theorem claim_C5_get_cost_truncating_division :
    (∀ m : Int, -(2 ^ 31) ≤ m → m < 2 ^ 31 → Day1.get_cost m = Int.tdiv m 3 - 2) ∧
    Day1.get_cost (-7) = -4 ∧ Day1.get_cost (-7) ≠ Int.fdiv (-7) 3 - 2 ∧
    Day1.get_cost 12 = 2 ∧ Day1.get_cost 14 = 2 ∧
    Day1.get_cost 1969 = 654 ∧ Day1.get_cost 100756 = 33583 :=
  ⟨fun _ _ _ => rfl, by decide, by decide, by decide, by decide, by decide, by decide⟩

/-- Witness for C5 at the concrete input `m = -7`, inside the `i32` range. -/
theorem claim_C5_witness :
    -(2 ^ 31) ≤ (-7 : Int) ∧ (-7 : Int) < 2 ^ 31 ∧
    Day1.get_cost (-7) = Int.tdiv (-7) 3 - 2 :=
  ⟨by decide, by decide,
    claim_C5_get_cost_truncating_division.1 (-7) (by decide) (by decide)⟩

/-- Counterexample to C6 as stated: the accumulator `total_cost` is an
`i32` and wraps, so for three copies of the largest `i32` mass the
program's `part2` differs from the mathematical chain-sum
`part2_spec` (3221225271, which overflows to -1073742025). -/
theorem claim_C6_counterexample :
    Day1.part2 [2147483647, 2147483647, 2147483647] ≠
      Day1.part2_spec [2147483647, 2147483647, 2147483647] := by
  have hS : (Day1.chainList (Day1.get_cost 2147483647)).sum = 1073741757 := by
    rw [show Day1.get_cost 2147483647 = 715827880 from by decide]
    rw [Day1.chainList_pos _ (by decide),
      show Day1.get_cost 715827880 = 238609291 from by decide]
    rw [Day1.chainList_pos _ (by decide),
      show Day1.get_cost 238609291 = 79536428 from by decide]
    rw [Day1.chainList_pos _ (by decide),
      show Day1.get_cost 79536428 = 26512140 from by decide]
    rw [Day1.chainList_pos _ (by decide),
      show Day1.get_cost 26512140 = 8837378 from by decide]
    rw [Day1.chainList_pos _ (by decide),
      show Day1.get_cost 8837378 = 2945790 from by decide]
    rw [Day1.chainList_pos _ (by decide),
      show Day1.get_cost 2945790 = 981928 from by decide]
    rw [Day1.chainList_pos _ (by decide),
      show Day1.get_cost 981928 = 327307 from by decide]
    rw [Day1.chainList_pos _ (by decide),
      show Day1.get_cost 327307 = 109100 from by decide]
    rw [Day1.chainList_pos _ (by decide),
      show Day1.get_cost 109100 = 36364 from by decide]
    rw [Day1.chainList_pos _ (by decide),
      show Day1.get_cost 36364 = 12119 from by decide]
    rw [Day1.chainList_pos _ (by decide),
      show Day1.get_cost 12119 = 4037 from by decide]
    rw [Day1.chainList_pos _ (by decide),
      show Day1.get_cost 4037 = 1343 from by decide]
    rw [Day1.chainList_pos _ (by decide),
      show Day1.get_cost 1343 = 445 from by decide]
    rw [Day1.chainList_pos _ (by decide),
      show Day1.get_cost 445 = 146 from by decide]
    rw [Day1.chainList_pos _ (by decide),
      show Day1.get_cost 146 = 46 from by decide]
    rw [Day1.chainList_pos _ (by decide),
      show Day1.get_cost 46 = 13 from by decide]
    rw [Day1.chainList_pos _ (by decide),
      show Day1.get_cost 13 = 2 from by decide]
    rw [Day1.chainList_pos _ (by decide),
      show Day1.get_cost 2 = -2 from by decide]
    rw [Day1.chainList_neg _ (by decide)]
    decide
  have hspec : Day1.part2_spec [2147483647, 2147483647, 2147483647] =
      3221225271 := by
    rw [Day1.part2_spec]
    simp only [List.map_cons, List.map_nil, List.sum_cons, List.sum_nil, hS]
    norm_num
  rw [Day1.part2_eq_wrap32_spec, hspec]
  decide

/-- Claim C6 (amended): since the accumulator `total_cost` is an `i32`,
`part2` equals the i32-wrapped value of the sum over each mass of its
chain of repeated costs — every non-negative intermediate value added,
the chain stopping at the first negative cost, which is never added —
and equals the mathematical chain-sum itself whenever that sum lies in
the `i32` range; in particular `part2 [14] = 2` and
`part2 [1969] = 966`. -/
theorem claim_C6_part2_is_chain_sum_wrapped :
    (∀ input : List Int, Day1.part2 input = wrap32 (Day1.part2_spec input)) ∧
    (∀ input : List Int, -(2 ^ 31) ≤ Day1.part2_spec input →
      Day1.part2_spec input < 2 ^ 31 →
      Day1.part2 input = Day1.part2_spec input) ∧
    Day1.part2 [14] = 2 ∧ Day1.part2 [1969] = 966 := by
  refine ⟨Day1.part2_eq_wrap32_spec, fun input h1 h2 => ?_, ?_, ?_⟩
  · rw [Day1.part2_eq_wrap32_spec, Day1.wrap32_id_of_range _ h1 h2]
  · simp [Day1.part2]
    rw [show Day1.get_cost 14 = 2 by decide,
      Day1.fuel_loop_step _ _ (by decide),
      show Day1.get_cost 2 = -2 by decide,
      Day1.fuel_loop_stop _ _ (by decide)]
    decide
  · simp [Day1.part2]
    rw [show Day1.get_cost 1969 = 654 by decide,
      Day1.fuel_loop_step _ _ (by decide),
      show Day1.get_cost 654 = 216 by decide,
      Day1.fuel_loop_step _ _ (by decide),
      show Day1.get_cost 216 = 70 by decide,
      Day1.fuel_loop_step _ _ (by decide),
      show Day1.get_cost 70 = 21 by decide,
      Day1.fuel_loop_step _ _ (by decide),
      show Day1.get_cost 21 = 5 by decide,
      Day1.fuel_loop_step _ _ (by decide),
      show Day1.get_cost 5 = -1 by decide,
      Day1.fuel_loop_stop _ _ (by decide)]
    decide

/-- Witness for C6 at the concrete input `[14]`, whose chain-sum lies
in the `i32` range. -/
theorem claim_C6_witness :
    -(2 ^ 31) ≤ Day1.part2_spec [14] ∧ Day1.part2_spec [14] < 2 ^ 31 ∧
    Day1.part2 [14] = Day1.part2_spec [14] := by
  have hspec : Day1.part2_spec [14] = 2 := by
    rw [Day1.part2_spec]
    simp only [List.map_cons, List.map_nil, List.sum_cons, List.sum_nil]
    rw [show Day1.get_cost 14 = 2 from by decide,
      Day1.chainList_pos _ (by decide),
      show Day1.get_cost 2 = -2 from by decide,
      Day1.chainList_neg _ (by decide)]
    decide
  refine ⟨by rw [hspec]; decide, by rw [hspec]; decide,
    claim_C6_part2_is_chain_sum_wrapped.2.1 [14] (by rw [hspec]; decide)
      (by rw [hspec]; decide)⟩

/-- Claim C10: the fuel chain terminates — `get_cost n < n` for every
non-negative `n`, so from any start the iterated chain reaches a
negative value after finitely many applications of `get_cost`. -/
theorem claim_C10_part2_terminates :
    (∀ n : Int, 0 ≤ n → Day1.get_cost n < n) ∧
    (∀ c : Int, ∃ k : Nat, Day1.get_cost^[k] c < 0) := by
  constructor
  · exact Day1.get_cost_lt_self
  · have H : ∀ (N : Nat) (c : Int), (c + 3).toNat ≤ N →
        ∃ k : Nat, Day1.get_cost^[k] c < 0 := by
      intro N
      induction N with
      | zero =>
        intro c hc
        refine ⟨0, ?_⟩
        simp only [Function.iterate_zero, id]
        omega
      | succ n ih =>
        intro c hc
        by_cases h0 : 0 ≤ c
        · have hlt := Day1.get_cost_lt_self c h0
          have hge : -2 ≤ Day1.get_cost c := by
            have h2 : 0 ≤ Int.tdiv c 3 := Int.tdiv_nonneg h0 (by omega)
            simp only [Day1.get_cost]
            omega
          obtain ⟨k, hk⟩ := ih (Day1.get_cost c) (by omega)
          refine ⟨k + 1, ?_⟩
          rw [Function.iterate_succ_apply]
          exact hk
        · refine ⟨0, ?_⟩
          simp only [Function.iterate_zero, id]
          omega
    exact fun c => H (c + 3).toNat c le_rfl

/-- Witness for C10 at the concrete inputs `n = 3` and `c = 5`. -/
theorem claim_C10_witness :
    (0 ≤ (3 : Int) ∧ Day1.get_cost 3 < 3) ∧
    (∃ k : Nat, Day1.get_cost^[k] (5 : Int) < 0) :=
  ⟨⟨by decide, claim_C10_part2_terminates.1 3 (by decide)⟩,
    claim_C10_part2_terminates.2 5⟩

/-- Claim C1: executing the base memory
`[1,9,10,3,2,3,11,0,99,30,40,50]` with `param1 = 9` and `param2 = 10`
(the values already at positions 1 and 2) succeeds and yields 3500 as
the final value at position 0. -/
theorem claim_C1_example_program_3500 :
    Day2.execute [1, 9, 10, 3, 2, 3, 11, 0, 99, 30, 40, 50] 9 10 =
      Day2.ExecOutcome.ok 3500 := by
  simp [Day2.execute, Day2.execLoop, Day2.asUsize, wrap32]

namespace Day2

theorem asUsize_eq_toNat (n : Int) (h0 : 0 ≤ n) (hw : n < 2 ^ 64) :
    asUsize n = n.toNat := by
  unfold asUsize
  rw [Int.emod_eq_of_lt h0 hw]

theorem execLoop_bad_opcode {m : List Int} {i : Nat} {c : Int}
    (hmi : m[i]? = some c) (h1 : c ≠ 1) (h2 : c ≠ 2) (h99 : c ≠ 99) :
    execLoop m i = ExecOutcome.err "Bad Opcode" := by
  obtain ⟨h, hc⟩ := List.getElem?_eq_some.mp hmi
  rw [execLoop]
  simp [h, hc, h1, h2, h99]

theorem execute_unfold {memory : List Int} (p1 p2 : Int)
    (hlen : 2 < memory.length) :
    execute memory p1 p2 = execLoop ((memory.set 1 p1).set 2 p2) 0 := by
  rw [execute, if_pos (by omega), if_pos hlen]

theorem execLoop_err_msg_aux (N : Nat) :
    ∀ (m : List Int) (i : Nat), m.length - i ≤ N →
      ∀ e, execLoop m i = ExecOutcome.err e → e = "Bad Opcode" := by
  induction N with
  | zero =>
    intro m i hN e he
    rw [execLoop] at he
    rw [dif_neg (by omega)] at he
    split at he
    · exact ExecOutcome.noConfusion he
    · exact ExecOutcome.noConfusion he
  | succ n ih =>
    intro m i hN e he
    rw [execLoop] at he
    repeat' split at he
    all_goals first
      | exact ih _ _ (by simp only [List.length_set]; omega) e he
      | exact ExecOutcome.noConfusion he
      | exact ((ExecOutcome.err.injEq _ _).mp he).symm

/-- Every `err` the interpreter loop can produce carries the message
`"Bad Opcode"`. -/
theorem execLoop_err_msg (m : List Int) (i : Nat) :
    ∀ e, execLoop m i = ExecOutcome.err e → e = "Bad Opcode" :=
  execLoop_err_msg_aux (m.length - i) m i le_rfl

/-- Safety discipline along an execution of the loop, mirroring the
spec's preconditions: at every visited instruction boundary, either the
loop is about to stop (halt opcode, boundary past the end of a
non-empty memory, or an unrecognized opcode, which errors rather than
panics), or the instruction is Add/Multiply with its three instruction
cells present and all three holding non-negative values that are valid
indices into the current memory. -/
inductive SafeFrom : List Int → Nat → Prop where
  | halt (m : List Int) (i : Nat) (h : i < m.length) (hc : m[i] = 99) :
      SafeFrom m i
  | oob (m : List Int) (i : Nat) (h : ¬ i < m.length) (h0 : 0 < m.length) :
      SafeFrom m i
  | bad (m : List Int) (i : Nat) (h : i < m.length) (h1 : m[i] ≠ 1)
      (h2 : m[i] ≠ 2) (h99 : m[i] ≠ 99) : SafeFrom m i
  | step (m : List Int) (i : Nat) (h : i < m.length)
      (hop : m[i] = 1 ∨ m[i] = 2) (pa pb po : Int)
      (hpa : m[i + 1]? = some pa) (hpb : m[i + 2]? = some pb)
      (hpo : m[i + 3]? = some po)
      (hpa0 : 0 ≤ pa) (hpaw : pa < 2 ^ 64) (hpal : pa.toNat < m.length)
      (hpb0 : 0 ≤ pb) (hpbw : pb < 2 ^ 64) (hpbl : pb.toNat < m.length)
      (hpo0 : 0 ≤ po) (hpow : po < 2 ^ 64) (hpol : po.toNat < m.length)
      (next : SafeFrom (m.set po.toNat
        (wrap32 (if m[i] = 1 then m[pa.toNat] + m[pb.toNat]
                 else m[pa.toNat] * m[pb.toNat]))) (i + 4)) :
      SafeFrom m i

theorem safe_no_panic {m : List Int} {i : Nat} (hs : SafeFrom m i) :
    execLoop m i ≠ ExecOutcome.panic := by
  induction hs with
  | halt m i h hc =>
      rw [execLoop]
      rw [dif_pos h, if_neg (by rw [hc]; decide), if_pos hc,
        List.getElem?_eq_getElem (show 0 < m.length by omega)]
      simp
  | oob m i h h0 =>
      rw [execLoop]
      rw [dif_neg h, List.getElem?_eq_getElem h0]
      simp
  | bad m i h h1 h2 h99 =>
      rw [execLoop]
      rw [dif_pos h, if_neg (by simp [h1, h2]), if_neg h99]
      simp
  | step m i h hop pa pb po hpa hpb hpo hpa0 hpaw hpal hpb0 hpbw hpbl
      hpo0 hpow hpol next ih =>
      rw [execLoop]
      simp only [dif_pos h, if_pos hop, hpa, hpb, hpo,
        asUsize_eq_toNat pa hpa0 hpaw, asUsize_eq_toNat pb hpb0 hpbw,
        asUsize_eq_toNat po hpo0 hpow,
        List.getElem?_eq_getElem hpal, List.getElem?_eq_getElem hpbl,
        if_pos hpol]
      exact ih

/-- Trace of an execution of the loop that runs off the end of memory
without ever meeting a Halt or unrecognized opcode: every visited
boundary holds Add or Multiply with all accesses in range, and `mf`
is the final working memory when the counter passes the end. -/
inductive RunsOff : List Int → Nat → List Int → Prop where
  | done (m : List Int) (i : Nat) (h : ¬ i < m.length) (h0 : 0 < m.length) :
      RunsOff m i m
  | step (m : List Int) (i : Nat) (mf : List Int) (h : i < m.length)
      (hop : m[i] = 1 ∨ m[i] = 2) (pa pb po va vb : Int)
      (hpa : m[i + 1]? = some pa) (hpb : m[i + 2]? = some pb)
      (hpo : m[i + 3]? = some po)
      (hva : m[asUsize pa]? = some va) (hvb : m[asUsize pb]? = some vb)
      (hlt : asUsize po < m.length)
      (next : RunsOff (m.set (asUsize po)
        (wrap32 (if m[i] = 1 then va + vb else va * vb))) (i + 4) mf) :
      RunsOff m i mf

theorem runsOff_execLoop {m : List Int} {i : Nat} {mf : List Int}
    (hr : RunsOff m i mf) : execLoop m i = ExecOutcome.ok mf.headI := by
  induction hr with
  | done m i h h0 =>
      rcases m with _ | ⟨a, l⟩
      · exact absurd h0 (by simp)
      · rw [execLoop, dif_neg h]
        simp [List.headI]
  | step m i mf h hop pa pb po va vb hpa hpb hpo hva hvb hlt next ih =>
      rw [execLoop]
      simp only [dif_pos h, if_pos hop, hpa, hpb, hpo, hva, hvb, if_pos hlt]
      exact ih

/-- Any `ok (a, b)` outcome of the search loop started at `(i, j)` names
the row-major-first matching pair at or after `(i, j)`: the pair is in
range, the interpreter hits the target there, and every strictly
earlier candidate (from `(i, j)` on) ran successfully with a
non-target result. -/
theorem searchFrom_ok_spec (memory : List Int) (target : Int) (N : Nat) :
    ∀ (i j : Nat) (a b : Int), (100 - i) * 101 + (100 - j) ≤ N → j ≤ 100 →
      searchFrom memory target i j = SearchOutcome.ok (a, b) →
      ∃ p q : Nat, a = p ∧ b = q ∧ p < 100 ∧ q < 100 ∧ posLe i j p q ∧
        execute memory p q = ExecOutcome.ok target ∧
        ∀ p' q' : Nat, p' < 100 → q' < 100 → posLe i j p' q' →
          posLt p' q' p q →
          ∃ r, execute memory p' q' = ExecOutcome.ok r ∧ r ≠ target := by
  induction N with
  | zero =>
    intro i j a b hN hj hs
    rw [searchFrom, if_neg (by omega)] at hs
    exact SearchOutcome.noConfusion hs
  | succ n ih =>
    intro i j a b hN hj hs
    rw [searchFrom] at hs
    by_cases hi : i < 100
    · rw [if_pos hi] at hs
      by_cases hjlt : j < 100
      · rw [if_pos hjlt] at hs
        cases hE : execute memory (i : Int) (j : Int) with
        | ok r =>
          simp only [hE] at hs
          by_cases hr : r = target
          · rw [if_pos hr] at hs
            injection hs with hpair
            rw [Prod.mk.injEq] at hpair
            obtain ⟨ha, hb⟩ := hpair
            refine ⟨i, j, ha.symm, hb.symm, hi, hjlt, Or.inr ⟨rfl, le_rfl⟩,
              by rw [← hr]; exact hE, ?_⟩
            intro p' q' hp' hq' hle hlt
            exfalso
            simp only [posLe, posLt] at hle hlt
            omega
          · rw [if_neg hr] at hs
            obtain ⟨p, q, ha, hb, hp, hq, hple, hexec, hearlier⟩ :=
              ih i (j + 1) a b (by omega) (by omega) hs
            refine ⟨p, q, ha, hb, hp, hq, ?_, hexec, ?_⟩
            · simp only [posLe] at hple ⊢
              omega
            · intro p' q' hp' hq' hle hlt
              by_cases hpq : p' = i ∧ q' = j
              · obtain ⟨rfl, rfl⟩ := hpq
                exact ⟨r, hE, hr⟩
              · refine hearlier p' q' hp' hq' ?_ hlt
                simp only [posLe] at hle ⊢
                omega
        | err e =>
          simp only [hE] at hs
          exact SearchOutcome.noConfusion hs
        | panic =>
          simp only [hE] at hs
          exact SearchOutcome.noConfusion hs
      · rw [if_neg hjlt] at hs
        obtain ⟨p, q, ha, hb, hp, hq, hple, hexec, hearlier⟩ :=
          ih (i + 1) 0 a b (by omega) (by omega) hs
        refine ⟨p, q, ha, hb, hp, hq, ?_, hexec, ?_⟩
        · simp only [posLe] at hple ⊢
          omega
        · intro p' q' hp' hq' hle hlt
          refine hearlier p' q' hp' hq' ?_ hlt
          simp only [posLe] at hle ⊢
          omega
    · rw [if_neg hi] at hs
      exact SearchOutcome.noConfusion hs

/-- If the interpreter errors at in-range pair `(p, q)` and every
candidate strictly before it (from `(i, j)` on) ran successfully with a
non-target result, the search loop started at `(i, j)` propagates that
error. -/
theorem searchFrom_err_spec (memory : List Int) (target : Int) (e : String)
    (N : Nat) :
    ∀ (i j p q : Nat), (100 - i) * 101 + (100 - j) ≤ N → j ≤ 100 →
      p < 100 → q < 100 → posLe i j p q →
      execute memory p q = ExecOutcome.err e →
      (∀ p' q' : Nat, p' < 100 → q' < 100 → posLe i j p' q' →
        posLt p' q' p q →
        ∃ r, execute memory p' q' = ExecOutcome.ok r ∧ r ≠ target) →
      searchFrom memory target i j = SearchOutcome.err e := by
  induction N with
  | zero =>
    intro i j p q hN hj hp hq hple hE hearlier
    exfalso
    simp only [posLe] at hple
    omega
  | succ n ih =>
    intro i j p q hN hj hp hq hple hE hearlier
    have hi : i < 100 := by
      simp only [posLe] at hple
      omega
    rw [searchFrom, if_pos hi]
    by_cases hjlt : j < 100
    · rw [if_pos hjlt]
      by_cases hpq : i = p ∧ j = q
      · obtain ⟨rfl, rfl⟩ := hpq
        rw [hE]
      · obtain ⟨r, hr, hrne⟩ :=
          hearlier i j hi hjlt (Or.inr ⟨rfl, le_rfl⟩)
            (by simp only [posLe] at hple; simp only [posLt]; omega)
        simp only [hr]
        rw [if_neg hrne]
        refine ih i (j + 1) p q (by omega) (by omega) hp hq ?_ hE ?_
        · simp only [posLe] at hple ⊢
          omega
        · intro p' q' hp' hq' hle hlt
          refine hearlier p' q' hp' hq' ?_ hlt
          simp only [posLe] at hle ⊢
          omega
    · rw [if_neg hjlt]
      refine ih (i + 1) 0 p q (by omega) (by omega) hp hq ?_ hE ?_
      · simp only [posLe] at hple ⊢
        omega
      · intro p' q' hp' hq' hle hlt
        refine hearlier p' q' hp' hq' ?_ hlt
        simp only [posLe] at hle ⊢
        omega

/-- If every in-range pair at or after `(i, j)` runs successfully with
a non-target result, the search loop started at `(i, j)` exhausts the
space and reports that the target was not found. -/
theorem searchFrom_exhaust (memory : List Int) (target : Int) (N : Nat) :
    ∀ (i j : Nat), (100 - i) * 101 + (100 - j) ≤ N → j ≤ 100 →
      (∀ p q : Nat, p < 100 → q < 100 → posLe i j p q →
        ∃ r, execute memory p q = ExecOutcome.ok r ∧ r ≠ target) →
      searchFrom memory target i j = SearchOutcome.err "Could not find result" := by
  induction N with
  | zero =>
    intro i j hN hj hall
    rw [searchFrom, if_neg (by omega)]
  | succ n ih =>
    intro i j hN hj hall
    rw [searchFrom]
    by_cases hi : i < 100
    · rw [if_pos hi]
      by_cases hjlt : j < 100
      · rw [if_pos hjlt]
        obtain ⟨r, hr, hrne⟩ := hall i j hi hjlt (Or.inr ⟨rfl, le_rfl⟩)
        simp only [hr]
        rw [if_neg hrne]
        refine ih i (j + 1) (by omega) (by omega) ?_
        intro p q hp hq hle
        refine hall p q hp hq ?_
        simp only [posLe] at hle ⊢
        omega
      · rw [if_neg hjlt]
        refine ih (i + 1) 0 (by omega) (by omega) ?_
        intro p q hp hq hle
        refine hall p q hp hq ?_
        simp only [posLe] at hle ⊢
        omega
    · rw [if_neg hi]

end Day2

/-- Claim C2: if the `part2` search returns `Ok((a, b))` then
`execute memory a b` yields the target, both components lie in
`[0, 100)`, and `(a, b)` is the first matching pair in row-major order:
every strictly earlier in-range pair executed successfully with a
result different from the target. -/
theorem claim_C2_search_first_match (program : Day2.Program) (a b : Int)
    (h : Day2.part2 program = Day2.SearchOutcome.ok (a, b)) :
    0 ≤ a ∧ a < 100 ∧ 0 ≤ b ∧ b < 100 ∧
    Day2.execute program.memory a b =
      Day2.ExecOutcome.ok Day2.DESIRED_RESULT ∧
    ∀ a' b' : Int, 0 ≤ a' → a' < 100 → 0 ≤ b' → b' < 100 →
      (a' < a ∨ (a' = a ∧ b' < b)) →
      ∃ r, Day2.execute program.memory a' b' = Day2.ExecOutcome.ok r ∧
        r ≠ Day2.DESIRED_RESULT := by
  rw [Day2.part2] at h
  obtain ⟨p, q, ha, hb, hp, hq, _, hexec, hearlier⟩ :=
    Day2.searchFrom_ok_spec program.memory Day2.DESIRED_RESULT (101 * 101)
      0 0 a b (by omega) (by omega) h
  subst ha
  subst hb
  refine ⟨Int.natCast_nonneg p, by exact_mod_cast hp, Int.natCast_nonneg q,
    by exact_mod_cast hq, hexec, ?_⟩
  intro a' b' h0a ha100 h0b hb100 hlt
  have hres := hearlier a'.toNat b'.toNat (by omega) (by omega)
    (by simp only [Day2.posLe]; omega)
    (by simp only [Day2.posLt]; omega)
  rw [Int.toNat_of_nonneg h0a, Int.toNat_of_nonneg h0b] at hres
  exact hres

/-- Witness for C2: a memory whose very first candidate pair `(0, 0)`
produces the target, so the search returns `(0, 0)`. -/
theorem claim_C2_witness :
    Day2.part2 ⟨[2, 0, 0, 0, 1, 9, 10, 0, 99, 19690000, 720]⟩ =
      Day2.SearchOutcome.ok (0, 0) ∧
    Day2.execute [2, 0, 0, 0, 1, 9, 10, 0, 99, 19690000, 720] 0 0 =
      Day2.ExecOutcome.ok Day2.DESIRED_RESULT := by
  have hpart : Day2.part2 ⟨[2, 0, 0, 0, 1, 9, 10, 0, 99, 19690000, 720]⟩ =
      Day2.SearchOutcome.ok (0, 0) := by
    rw [Day2.part2, Day2.searchFrom]
    norm_num
    rw [show Day2.execute [2, 0, 0, 0, 1, 9, 10, 0, 99, 19690000, 720] 0 0 =
        Day2.ExecOutcome.ok 19690720 by
      simp [Day2.execute, Day2.execLoop, Day2.asUsize, wrap32]]
    simp [Day2.DESIRED_RESULT]
  exact ⟨hpart, (claim_C2_search_first_match _ 0 0 hpart).2.2.2.2.1⟩

/-- Claim C3: if the interpreter errors on some candidate pair while
every earlier pair ran successfully without hitting the target, the
search returns that same error (no later pair is tried); and if every
pair of the full 100×100 space succeeds with a non-target result, the
search returns the `"Could not find result"` error. -/
theorem claim_C3_search_error_handling (program : Day2.Program) :
    (∀ (e : String) (p q : Nat), p < 100 → q < 100 →
       Day2.execute program.memory p q = Day2.ExecOutcome.err e →
       (∀ p' q' : Nat, p' < 100 → q' < 100 → Day2.posLt p' q' p q →
         ∃ r, Day2.execute program.memory p' q' = Day2.ExecOutcome.ok r ∧
           r ≠ Day2.DESIRED_RESULT) →
       Day2.part2 program = Day2.SearchOutcome.err e) ∧
    ((∀ p q : Nat, p < 100 → q < 100 →
       ∃ r, Day2.execute program.memory p q = Day2.ExecOutcome.ok r ∧
         r ≠ Day2.DESIRED_RESULT) →
     Day2.part2 program = Day2.SearchOutcome.err "Could not find result") := by
  constructor
  · intro e p q hp hq hE hearlier
    rw [Day2.part2]
    exact Day2.searchFrom_err_spec program.memory Day2.DESIRED_RESULT e
      (101 * 101) 0 0 p q (by omega) (by omega) hp hq
      (by simp only [Day2.posLe]; omega) hE
      (fun p' q' hp' hq' _ hlt => hearlier p' q' hp' hq' hlt)
  · intro hall
    rw [Day2.part2]
    exact Day2.searchFrom_exhaust program.memory Day2.DESIRED_RESULT
      (101 * 101) 0 0 (by omega) (by omega)
      (fun p q hp hq _ => hall p q hp hq)

/-- Witness for C3: a bad opcode at the first candidate aborts the
whole search with that error; an always-halting program that never
produces the target exhausts the space. -/
theorem claim_C3_witness :
    Day2.part2 ⟨[55, 0, 0]⟩ = Day2.SearchOutcome.err "Bad Opcode" ∧
    Day2.part2 ⟨[99, 0, 0]⟩ =
      Day2.SearchOutcome.err "Could not find result" := by
  constructor
  · refine (claim_C3_search_error_handling ⟨[55, 0, 0]⟩).1 "Bad Opcode" 0 0
      (by omega) (by omega) ?_ ?_
    · simp [Day2.execute, Day2.execLoop]
    · intro p' q' hp' hq' hlt
      exfalso
      simp only [Day2.posLt] at hlt
      omega
  · refine (claim_C3_search_error_handling ⟨[99, 0, 0]⟩).2 ?_
    intro p q hp hq
    refine ⟨99, ?_, by decide⟩
    simp [Day2.execute, Day2.execLoop]

/-- Claim C4: whenever the loop reads an opcode that is none of 1, 2 or
99 at an instruction boundary — including the very first instruction of
`execute` — it returns the `"Bad Opcode"` error as a result value (the
total embedding's panic outcome is not produced, no number is
returned), and no further instruction is processed. -/
theorem claim_C4_bad_opcode_errors :
    (∀ (m : List Int) (i : Nat) (c : Int), m[i]? = some c →
       c ≠ 1 → c ≠ 2 → c ≠ 99 →
       Day2.execLoop m i = Day2.ExecOutcome.err "Bad Opcode") ∧
    (∀ (memory : List Int) (p1 p2 c : Int), 2 < memory.length →
       memory[0]? = some c → c ≠ 1 → c ≠ 2 → c ≠ 99 →
       Day2.execute memory p1 p2 = Day2.ExecOutcome.err "Bad Opcode") := by
  constructor
  · intro m i c hmi h1 h2 h99
    exact Day2.execLoop_bad_opcode hmi h1 h2 h99
  · intro memory p1 p2 c hlen hm0 h1 h2 h99
    rw [Day2.execute_unfold p1 p2 hlen]
    refine Day2.execLoop_bad_opcode (c := c) ?_ h1 h2 h99
    rw [List.getElem?_set_ne (by omega), List.getElem?_set_ne (by omega)]
    exact hm0

/-- Witness for C4: a bad opcode at the very first boundary, both for
the bare loop and for `execute`. -/
theorem claim_C4_witness :
    Day2.execLoop [7] 0 = Day2.ExecOutcome.err "Bad Opcode" ∧
    Day2.execute [7, 0, 0] 12 2 = Day2.ExecOutcome.err "Bad Opcode" :=
  ⟨claim_C4_bad_opcode_errors.1 [7] 0 7 (by decide) (by decide) (by decide)
      (by decide),
    claim_C4_bad_opcode_errors.2 [7, 0, 0] 12 2 7 (by decide) (by decide)
      (by decide) (by decide) (by decide)⟩

/-- Claim C7: when the base memory has at least 3 positions and the
execution from the overridden working memory respects the access
discipline (`SafeFrom`: every operand and destination cell an Add or
Multiply reads is present and holds a non-negative valid index),
`execute` never reaches the panic outcome of the total embedding, and
any error it returns is the unrecognized-opcode error. -/
theorem claim_C7_safe_execution_no_panic (memory : List Int) (p1 p2 : Int)
    (hlen : 3 ≤ memory.length)
    (hsafe : Day2.SafeFrom ((memory.set 1 p1).set 2 p2) 0) :
    Day2.execute memory p1 p2 ≠ Day2.ExecOutcome.panic ∧
    ∀ e, Day2.execute memory p1 p2 = Day2.ExecOutcome.err e →
      e = "Bad Opcode" := by
  rw [Day2.execute_unfold p1 p2 (by omega)]
  exact ⟨Day2.safe_no_panic hsafe, Day2.execLoop_err_msg _ 0⟩

/-- Witness for C7: the three-cell memory `[99, 0, 0]` halts at once. -/
theorem claim_C7_witness :
    Day2.execute [99, 0, 0] 0 0 ≠ Day2.ExecOutcome.panic :=
  (claim_C7_safe_execution_no_panic [99, 0, 0] 0 0 (by decide)
    (Day2.SafeFrom.halt _ 0 (by decide) (by decide))).1

/-- Claim C9: if the instruction pointer runs past the end of working
memory without meeting a Halt or unrecognized opcode — every visited
boundary holds Add or Multiply with in-range accesses, as recorded by a
`RunsOff` trace ending in final memory `mf` — then `execute` terminates
successfully and returns the value at position 0 of the final working
memory, with no Halt instruction ever encountered. -/
theorem claim_C9_no_halt_termination (memory : List Int) (p1 p2 : Int)
    (mf : List Int) (hlen : 2 < memory.length)
    (hrun : Day2.RunsOff ((memory.set 1 p1).set 2 p2) 0 mf) :
    Day2.execute memory p1 p2 = Day2.ExecOutcome.ok mf.headI := by
  rw [Day2.execute_unfold p1 p2 hlen]
  exact Day2.runsOff_execLoop hrun

/-- Witness for C9: `[1,0,0,0]` with parameters 0, 0 — a single Add
writing `1 + 1` to position 0, then the pointer passes the end. -/
theorem claim_C9_witness :
    Day2.execute [1, 0, 0, 0] 0 0 = Day2.ExecOutcome.ok 2 := by
  have h := claim_C9_no_halt_termination [1, 0, 0, 0] 0 0
    ((([1, 0, 0, 0] : List Int).set 1 0).set 2 0 |>.set (Day2.asUsize 0)
      (wrap32 (if ((([1, 0, 0, 0] : List Int).set 1 0).set 2 0)[0] = 1
        then (1 : Int) + 1 else (1 : Int) * 1)))
    (by decide)
    (Day2.RunsOff.step _ 0 _ (by decide) (by decide) 0 0 0 1 1 (by decide)
      (by decide) (by decide) (by decide) (by decide) (by decide)
      (Day2.RunsOff.done _ 4 (by decide) (by decide)))
  simpa using h

/-- Claim C8: `execute` never mutates the caller's program: each call
returns the program unchanged, so a call after another call with
different parameters gives exactly the result of an independent call. -/
theorem claim_C8_execute_no_mutation :
    ∀ (p : Day2.Program) (p1 p2 q1 q2 : Int),
      ((p.execute p1 p2).2.execute q1 q2).1 = (p.execute q1 q2).1 ∧
      (p.execute p1 p2).2 = p :=
  fun _ _ _ _ _ => ⟨rfl, rfl⟩
